import Mathlib

/-! Shallow embedding of `file.go` of the `log` package: the rotating
`FileWriter` (size-based rotation, backup pruning, symlink housekeeping),
the tag-routed `MultiFileWriter`, and the process-wide host identity.
Filesystem effects are modelled as an explicit trace of operations, and
fallible system calls take their outcomes from an explicit environment. -/

/-- Broken-down time components, as Go's `time.Time` exposes them to the
`Format` call in `fileinfo`. -/
structure DateTime where
  year : Nat
  month : Nat
  day : Nat
  hour : Nat
  minute : Nat
  second : Nat
deriving DecidableEq, Repr

/-- Go `time.Time` value, seen through the two component views `fileinfo`
can format: the UTC view (`now.UTC()`) and the local-time view. -/
structure GoTime where
  utc : DateTime
  loc : DateTime
deriving DecidableEq, Repr

/-- Lexicographic order (non-strict) on character lists: Go's `<=` on
strings, used by `sort.Strings`. -/
def lexLe : List Char → List Char → Bool
  | [], _ => true
  | _ :: _, [] => false
  | a :: as, b :: bs => if a < b then true else if b < a then false else lexLe as bs

/-- Lexicographic order (strict) on character lists: Go's `<` on strings. -/
def lexLt : List Char → List Char → Bool
  | [], [] => false
  | [], _ :: _ => true
  | _ :: _, [] => false
  | a :: as, b :: bs => if a < b then true else if b < a then false else lexLt as bs

/-- Go string order `a <= b`, as a proposition. -/
def strLe (a b : String) : Prop := lexLe a.data b.data = true

instance : DecidableRel strLe := fun a b => by unfold strLe; infer_instance

/-- Go `sort.Strings`: sort ascending in lexicographic order. -/
def sortStrings (l : List String) : List String := l.insertionSort strLe

/-- Length of the extension found by Go's `filepath.Ext`, computed on the
reversed character list: scan backwards, stop at a path separator, and
count up to (and including) the first `.` found. -/
def extLenAux : List Char → Option Nat
  | [] => none
  | c :: rest =>
      if c = '/' then none
      else if c = '.' then some 1
      else (extLenAux rest).map Nat.succ

/-- Go `filepath.Ext`: the suffix beginning at the final dot in the final
slash-separated element, or `""` when there is no dot. -/
def filepathExt (s : String) : String :=
  match extLenAux s.data.reverse with
  | none => ""
  | some k => String.mk (s.data.drop (s.data.length - k))

/-- Base path with the extension of `filepathExt` stripped:
`Filename[0 : len(Filename)-len(ext)]`. -/
def stemOf (s : String) : String :=
  String.mk (s.data.take (s.data.length - (filepathExt s).data.length))

/-- Go `filepath.Base`: `"."` on the empty path, otherwise strip trailing
slashes and keep everything after the last remaining slash (`"/"` when
nothing remains). -/
def filepathBase (s : String) : String :=
  if s = "" then "."
  else
    let rev := s.data.reverse.dropWhile (· = '/')
    if rev = [] then "/"
    else String.mk (rev.takeWhile (· ≠ '/')).reverse

/-- Decimal digit as a character. -/
def digitChar (d : Nat) : Char :=
  match d with
  | 0 => '0' | 1 => '1' | 2 => '2' | 3 => '3' | 4 => '4'
  | 5 => '5' | 6 => '6' | 7 => '7' | 8 => '8' | _ => '9'

/-- The `k` decimal digits of `n`, most significant first, zero padded
(the semantics of Go's zero-padded numeric `time.Format` verbs). -/
def padDigits : Nat → Nat → List Nat
  | 0, _ => []
  | k + 1, n => n / 10 ^ k % 10 :: padDigits k (n % 10 ^ k)

/-- Zero-padded decimal numeral of width `k` as characters. -/
def padChars (k n : Nat) : List Char := (padDigits k n).map digitChar

/-- Character list of the rotation timestamp: Go's
`now.Format(".2006-01-02T15-04-05")`. -/
def stampChars (t : DateTime) : List Char :=
  '.' :: padChars 4 t.year ++ '-' :: padChars 2 t.month ++ '-' :: padChars 2 t.day
    ++ 'T' :: padChars 2 t.hour ++ '-' :: padChars 2 t.minute ++ '-' :: padChars 2 t.second

/-- Rotation timestamp segment as a string. -/
def stampStr (t : DateTime) : String := String.mk (stampChars t)

/-- Open flags of `os.OpenFile`. -/
inductive OFlag where
  | oAppend
  | oCreate
  | oWronly
  | oRdonly
deriving DecidableEq, Repr

/-- Configuration of a rotating file writer (`FileWriter` in `file.go`);
the mutable fields live in `FileState`. -/
structure FileWriter where
  Filename : String
  MaxSize : Int
  MaxBackups : Int
  FileMode : Nat
  EnsureDir : Bool
  LocalTime : Bool
  HostName : Bool
  ProcessID : Bool
deriving DecidableEq, Repr

/-- Mutable state of a `FileWriter`, guarded by its mutex: the open handle
(identified by the name it was opened under, `nil` = `none`) and the byte
counter `size`. -/
structure FileState where
  size : Int
  file : Option String
deriving DecidableEq, Repr

/-- Result triple of `fileinfo`: new filename, open flags, permission. -/
structure FileInfo where
  name : String
  flag : List OFlag
  perm : Nat
deriving DecidableEq, Repr

/-- Go `fileinfo` (file.go:200-233): derive the backup filename from the
base path, the rotation time (UTC unless `LocalTime`), and the host /
process-id embedding flags; fixed open flags; permission defaulting
to 0644. `host` and `pid` stand for the process globals `hostname` and
`pid`. -/
def FileWriter.fileinfo (w : FileWriter) (host : String) (pid : Nat) (now : GoTime) : FileInfo :=
  let t := if w.LocalTime then now.loc else now.utc
  let ext := filepathExt w.Filename
  let stem := stemOf w.Filename
  let base := stem ++ stampStr t
  let filename :=
    if w.HostName then
      if w.ProcessID then base ++ "." ++ host ++ "-" ++ toString pid ++ ext
      else base ++ "." ++ host ++ ext
    else
      if w.ProcessID then base ++ "." ++ toString pid ++ ext
      else base ++ ext
  { name := filename
    flag := [OFlag.oAppend, OFlag.oCreate, OFlag.oWronly]
    perm := if w.FileMode = 0 then 0o644 else w.FileMode }

/-- Filesystem effects performed by the writer, recorded as a trace. -/
inductive FsOp where
  | stderrWrite (p : List Nat)
  | mkdirAll (dir : String)
  | openF (name : String) (flag : List OFlag) (perm : Nat)
  | writeF (name : String) (p : List Nat)
  | closeF (name : String)
  | remove (name : String)
  | symlink (target linkpath : String)
  | lchown (name : String) (uid gid : Int)
  | chown (name : String) (uid gid : Int)
deriving DecidableEq, Repr

/-- Outcomes of the fallible system calls a single writer call can make,
plus the process globals it reads. -/
structure Env where
  now : GoTime
  mkdirErr : Option String
  openErr : String → Option String
  writeErr : Option String
  writeN : Nat
  closeErr : String → Option String
  sudoUID : Int
  sudoGID : Int
  euid : Int
  globMatches : List String
  host : String
  pid : Nat

/-- Backups removed by the housekeeping loop (file.go:171-178): glob the
backup pattern, sort ascending, and remove the first
`len(names) - backups - 1` entries (Go `int` arithmetic; nothing is
removed when the bound is not positive). -/
def pruneRemovals (names : List String) (backups : Int) : List String :=
  if names.length > 0 then
    (sortStrings names).take ((names.length : Int) - backups - 1).toNat
  else []

/-- Detached housekeeping task spawned by `rotate` (file.go:154-179):
close the superseded handle, remove the base path, recreate the symlink
unless `ProcessID`, best-effort ownership restoration, then prune old
backups. -/
def rotateHousekeeping (oldfile : Option String) (newname filename : String)
    (backups : Int) (processID : Bool) (env : Env) : List FsOp :=
  (match oldfile with | some f => [FsOp.closeF f] | none => []) ++
  [FsOp.remove filename] ++
  (if processID then [] else [FsOp.symlink (filepathBase newname) filename]) ++
  (if env.sudoUID ≠ 0 ∧ env.sudoGID ≠ 0 ∧ env.euid = 0 then
      [FsOp.lchown filename env.sudoUID env.sudoGID,
       FsOp.chown newname env.sudoUID env.sudoGID]
   else []) ++
  (pruneRemovals env.globMatches backups).map FsOp.remove

/-- Result of the internal `rotate` (lock held). -/
structure RotateResult where
  err : Option String
  st : FileState
  ops : List FsOp
deriving Repr

/-- Go `rotate` (file.go:145-182): open the new backup file named by
`fileinfo`; on failure the handle field takes the (nil) result of
`os.OpenFile` and the error is returned; on success the handle is
swapped, the counter reset, and housekeeping is handed to a detached
task. -/
def FileWriter.rotateStep (w : FileWriter) (env : Env) (s : FileState) : RotateResult :=
  let fi := w.fileinfo env.host env.pid env.now
  match env.openErr fi.name with
  | some e => { err := some e, st := { s with file := none }, ops := [] }
  | none =>
      { err := none
        st := { size := 0, file := some fi.name }
        ops := FsOp.openF fi.name fi.flag fi.perm ::
          rotateHousekeeping s.file fi.name w.Filename w.MaxBackups w.ProcessID env }

/-- Go `create` (file.go:184-197): open the file named by `fileinfo`,
reset the counter, remove the base path and (unless `ProcessID`) symlink
it to the new file's base name. Returns the new handle's name and the
effect trace. -/
def FileWriter.createStep (w : FileWriter) (env : Env) : Except String (String × List FsOp) :=
  let fi := w.fileinfo env.host env.pid env.now
  match env.openErr fi.name with
  | some e => Except.error e
  | none =>
      Except.ok (fi.name,
        [FsOp.openF fi.name fi.flag fi.perm, FsOp.remove w.Filename] ++
        (if w.ProcessID then [] else [FsOp.symlink (filepathBase fi.name) w.Filename]))

/-- Result of one `Write` call. `rotations` counts successful rotations
performed by this call (0 or 1). -/
structure WriteResult where
  n : Nat
  err : Option String
  st : FileState
  ops : List FsOp
  rotations : Nat
deriving Repr

/-- Shared tail of `Write` (file.go:106-118): write `p` to the open
handle `f`; on success bump the counter and rotate when the limit is
strictly exceeded. -/
def FileWriter.writeBody (w : FileWriter) (env : Env) (f : String) (size : Int)
    (p : List Nat) (pre : List FsOp) : WriteResult :=
  match env.writeErr with
  | some e =>
      { n := env.writeN, err := some e, st := { size := size, file := some f }
        ops := pre ++ [FsOp.writeF f p], rotations := 0 }
  | none =>
      let size2 : Int := size + p.length
      if w.MaxSize > 0 ∧ size2 > w.MaxSize ∧ w.Filename ≠ "" then
        let r := w.rotateStep env { size := size2, file := some f }
        { n := p.length, err := r.err, st := r.st
          ops := pre ++ [FsOp.writeF f p] ++ r.ops
          rotations := if r.err = none then 1 else 0 }
      else
        { n := p.length, err := none, st := { size := size2, file := some f }
          ops := pre ++ [FsOp.writeF f p], rotations := 0 }

/-- Go `Write` (file.go:83-119): with no open handle, an empty `Filename`
sends the bytes to stderr; otherwise the directory is optionally created
and the current file opened via `create`; then the shared write body
runs. -/
def FileWriter.writeStep (w : FileWriter) (env : Env) (s : FileState) (p : List Nat) : WriteResult :=
  match s.file with
  | some f => w.writeBody env f s.size p []
  | none =>
      if w.Filename = "" then
        { n := p.length, err := none, st := s, ops := [FsOp.stderrWrite p], rotations := 0 }
      else
        match (if w.EnsureDir then env.mkdirErr else none) with
        | some e => { n := 0, err := some e, st := s, ops := [], rotations := 0 }
        | none =>
            match w.createStep env with
            | Except.error e => { n := 0, err := some e, st := s, ops := [], rotations := 0 }
            | Except.ok (f, ops1) => w.writeBody env f 0 p ops1

/-- Run a sequence of `Write` calls; returns final state, the number of
successful rotations, and whether every call returned a nil error. -/
def FileWriter.runWrites (w : FileWriter) (env : Env) (s : FileState) :
    List (List Nat) → FileState × Nat × Bool
  | [] => (s, 0, true)
  | p :: ps =>
      ((w.runWrites env (w.writeStep env s p).st ps).1,
       (w.writeStep env s p).rotations + (w.runWrites env (w.writeStep env s p).st ps).2.1,
       (w.writeStep env s p).err.isNone && (w.runWrites env (w.writeStep env s p).st ps).2.2)

/-- Go `FileWriter.Close` (file.go:122-131): close the handle when one is
open, clear it and reset the counter; otherwise a no-op returning nil. -/
def FileWriter.closeStep (env : Env) (s : FileState) : Option String × FileState × List FsOp :=
  match s.file with
  | some f => (env.closeErr f, { size := 0, file := none }, [FsOp.closeF f])
  | none => (none, s, [])

/-- Value held in the fan-out writer's map, as `MultiFileWriter.Close`
consumes it: a nil interface value, a writer without a close capability,
or a closer whose `Close` returns `closeRes`. -/
inductive MWriter where
  | nilW : MWriter
  | plain : MWriter
  | closable (closeRes : Option String) : MWriter
deriving DecidableEq, Repr

/-- Go `MultiFileWriter.Close` (file.go:309-324): iterate the map (in the
given order), skip nil writers, call `Close` on every closer, and keep
overwriting `err` with each non-nil close error. Also returns the names
whose `Close` was actually called, in order. -/
def MultiFileWriter.closeStep (writes : Option (List (String × MWriter))) :
    Option String × List String :=
  match writes with
  | none => (none, [])
  | some l =>
      l.foldl (fun (acc : Option String × List String) kv =>
        match kv.2 with
        | MWriter.nilW => acc
        | MWriter.plain => acc
        | MWriter.closable cres =>
            ((match cres with | some e => some e | none => acc.1), acc.2 ++ [kv.1])) (none, [])

/-- Dispatch loop of `MultiFileWriter.WriteEntry` (file.go:337-345): for
each tag, when the map has a writer under that name, dispatch and record
`(n, err, find)` exactly as the Go loop updates its locals. Map values
are abstracted to the `(n, err)` result that writer's `WriteEntry`
returns for the entry at hand. -/
def dispatchLoop (writes : List (String × (Nat × Option String))) :
    List String → Nat × Option String × Bool → Nat × Option String × Bool
  | [], acc => acc
  | t :: ts, (n, err, find) =>
      match writes.lookup t with
      | some (n1, e1) =>
          dispatchLoop writes ts
            (n1, (match e1, err with | some e, none => some e | _, _ => err), true)
      | none => dispatchLoop writes ts (n, err, find)

/-- Go `MultiFileWriter.WriteEntry` (file.go:327-356): no-op success on an
empty tag list or an empty map; otherwise run the dispatch loop over the
tags and, when nothing matched, fall back to the `"default"` writer. -/
def MultiFileWriter.writeEntryStep (writes : List (String × (Nat × Option String)))
    (tags : List String) : Nat × Option String :=
  if tags.length < 1 then (0, none)
  else if writes.length < 1 then (0, none)
  else
    match dispatchLoop writes tags (0, none, false) with
    | (n, err, find) =>
      if !find then
        match writes.lookup "default" with
        | some (n1, e1) => (n1, (match e1, err with | some e, none => some e | _, _ => err))
        | none => (n, err)
      else (n, err)

/-- Go `strings.HasPrefix`. -/
def goHasPrefix (s p : String) : Bool := s.data.take p.data.length == p.data

/-- Machine-identifier files consulted per platform (file.go:242-248). -/
def seedFiles (goos : String) : List String :=
  if goos = "linux" then ["/etc/machine-id", "/proc/self/cpuset"]
  else if goos = "freebsd" then ["/etc/hostid"]
  else []

/-- Go `hostname, machine` initializer (file.go:235-260), parametrized by
its environment: `hostRes` is `os.Hostname()` (`none` = error), `rnd` the
result of `Fastrandn(1000000)`, `readFile` the readable file contents,
and `digest` the md5 digest function. Every read failure is tolerated by
omitting that file's bytes. -/
def hostIdentity {α : Type} (digest : String → α) (hostRes : Option String) (rnd : Nat)
    (goos : String) (readFile : String → Option String) : String × α :=
  let host := match hostRes with
    | none => "localhost-" ++ toString rnd
    | some h => if goHasPrefix h "localhost" then "localhost-" ++ toString rnd else h
  let data := (seedFiles goos).foldl (fun d f =>
    match readFile f with | some b => d ++ b | none => d) host
  (host, digest data)

theorem lexLe_refl (l : List Char) : lexLe l l = true := by
  induction l with
  | nil => rfl
  | cons a as ih => simp [lexLe, lt_irrefl, ih]

theorem lexLe_total (a b : List Char) : lexLe a b = true ∨ lexLe b a = true := by
  induction a generalizing b with
  | nil => exact Or.inl rfl
  | cons x xs ih =>
      cases b with
      | nil => exact Or.inr rfl
      | cons y ys =>
          rcases lt_trichotomy x y with h | h | h
          · exact Or.inl (by simp [lexLe, h])
          · subst h
            rcases ih ys with h2 | h2
            · exact Or.inl (by simp [lexLe, lt_irrefl, h2])
            · exact Or.inr (by simp [lexLe, lt_irrefl, h2])
          · exact Or.inr (by simp [lexLe, h])

theorem lexLe_trans (a b c : List Char) (hab : lexLe a b = true) (hbc : lexLe b c = true) :
    lexLe a c = true := by
  induction a generalizing b c with
  | nil => rfl
  | cons x xs ih =>
      cases b with
      | nil => simp [lexLe] at hab
      | cons y ys =>
          cases c with
          | nil => simp [lexLe] at hbc
          | cons z zs =>
              rcases lt_trichotomy x y with h1 | h1 | h1
              · rcases lt_trichotomy y z with h2 | h2 | h2
                · simp [lexLe, lt_trans h1 h2]
                · subst h2; simp [lexLe, h1]
                · simp [lexLe, h2, asymm h2] at hbc
              · subst h1
                rcases lt_trichotomy x z with h2 | h2 | h2
                · simp [lexLe, h2]
                · subst h2
                  simp only [lexLe, lt_irrefl, if_neg (lt_irrefl x), if_false] at hab hbc ⊢
                  exact ih ys zs hab hbc
                · simp [lexLe, h2, asymm h2] at hbc
              · simp [lexLe, h1, asymm h1] at hab

instance : IsTotal String strLe := ⟨fun a b => lexLe_total a.data b.data⟩

instance : IsTrans String strLe := ⟨fun a b c => lexLe_trans a.data b.data c.data⟩

theorem sortStrings_sorted (l : List String) : List.Sorted strLe (sortStrings l) :=
  List.sorted_insertionSort strLe l

theorem sortStrings_perm (l : List String) : (sortStrings l).Perm l :=
  List.perm_insertionSort strLe l

theorem lexLt_irrefl (l : List Char) : lexLt l l = false := by
  induction l with
  | nil => rfl
  | cons a as ih => simp [lexLt, lt_irrefl, ih]

theorem lexLt_cons_same (c : Char) (x y : List Char) :
    lexLt (c :: x) (c :: y) = lexLt x y := by
  simp [lexLt, lt_irrefl]

theorem lexLt_append (a : List Char) (c : List Char) (b : List Char) (d : List Char)
    (h : a.length = b.length) :
    lexLt (a ++ c) (b ++ d) = (lexLt a b || (!lexLt b a && lexLt c d)) := by
  induction a generalizing b with
  | nil =>
      cases b with
      | nil => simp [lexLt]
      | cons y ys => simp at h
  | cons x xs ih =>
      cases b with
      | nil => simp at h
      | cons y ys =>
          simp only [List.length_cons, Nat.succ_inj] at h
          rcases lt_trichotomy x y with h1 | h1 | h1
          · simp [lexLt, List.cons_append, h1, asymm h1]
          · subst h1
            simp only [List.cons_append, lexLt_cons_same]
            exact ih ys h
          · simp [lexLt, List.cons_append, h1, asymm h1]

theorem padDigits_length (k n : Nat) : (padDigits k n).length = k := by
  induction k generalizing n with
  | zero => rfl
  | succ k ih => simp [padDigits, ih]

theorem padChars_length (k n : Nat) : (padChars k n).length = k := by
  simp [padChars, padDigits_length]

theorem digitChar_lt_iff : ∀ d1 < 10, ∀ d2 < 10,
    (digitChar d1 < digitChar d2 ↔ d1 < d2) := by decide

theorem padLt (k : Nat) : ∀ m n : Nat, m < 10 ^ k → n < 10 ^ k →
    lexLt (padChars k m) (padChars k n) = decide (m < n) := by
  induction k with
  | zero =>
      intro m n hm hn
      interval_cases m
      interval_cases n
      rfl
  | succ k ih =>
      intro m n hm hn
      have hB : (0 : Nat) < 10 ^ k := Nat.pos_pow_of_pos k (by norm_num)
      have h10 : 10 ^ (k + 1) = 10 ^ k * 10 := by ring
      have hdm : m / 10 ^ k < 10 := by
        rw [Nat.div_lt_iff_lt_mul hB]
        omega
      have hdn : n / 10 ^ k < 10 := by
        rw [Nat.div_lt_iff_lt_mul hB]
        omega
      have hm2 : m % 10 ^ k < 10 ^ k := Nat.mod_lt _ hB
      have hn2 : n % 10 ^ k < 10 ^ k := Nat.mod_lt _ hB
      have hmeq := Nat.div_add_mod m (10 ^ k)
      have hneq := Nat.div_add_mod n (10 ^ k)
      simp only [padChars, padDigits, Nat.mod_eq_of_lt hdm, Nat.mod_eq_of_lt hdn, List.map_cons]
      rcases lt_trichotomy (m / 10 ^ k) (n / 10 ^ k) with h1 | h1 | h1
      · have hc : digitChar (m / 10 ^ k) < digitChar (n / 10 ^ k) :=
          (digitChar_lt_iff _ hdm _ hdn).mpr h1
        have hstep : 10 ^ k * (m / 10 ^ k) + 10 ^ k ≤ 10 ^ k * (n / 10 ^ k) := by
          calc 10 ^ k * (m / 10 ^ k) + 10 ^ k = 10 ^ k * (m / 10 ^ k + 1) := by ring
          _ ≤ 10 ^ k * (n / 10 ^ k) := Nat.mul_le_mul_left _ (by omega)
        have hmn : m < n := by omega
        simp [lexLt, hc, hmn]
      · have hA : 10 ^ k * (m / 10 ^ k) = 10 ^ k * (n / 10 ^ k) := by rw [h1]
        rw [h1]
        rw [lexLt_cons_same]
        rw [show (padDigits k (m % 10 ^ k)).map digitChar = padChars k (m % 10 ^ k) from rfl]
        rw [show (padDigits k (n % 10 ^ k)).map digitChar = padChars k (n % 10 ^ k) from rfl]
        rw [ih _ _ hm2 hn2]
        simp only [decide_eq_decide]
        omega
      · have hc : digitChar (n / 10 ^ k) < digitChar (m / 10 ^ k) :=
          (digitChar_lt_iff _ hdn _ hdm).mpr h1
        have hstep : 10 ^ k * (n / 10 ^ k) + 10 ^ k ≤ 10 ^ k * (m / 10 ^ k) := by
          calc 10 ^ k * (n / 10 ^ k) + 10 ^ k = 10 ^ k * (n / 10 ^ k + 1) := by ring
          _ ≤ 10 ^ k * (m / 10 ^ k) := Nat.mul_le_mul_left _ (by omega)
        have hmn : n < m := by omega
        simp [lexLt, hc, asymm hc, Nat.lt_asymm hmn]

/-- Lexicographic strict comparison of a chain of numeric field pairs. -/
def chainLt : List (Nat × Nat) → Bool
  | [] => false
  | (m, n) :: rest => decide (m < n) || (!decide (n < m) && chainLt rest)

/-- Chain comparison with an explicit continuation used when every field
pair is equal. -/
def chainLtR (L : Bool) : List (Nat × Nat) → Bool
  | [] => L
  | (m, n) :: rest => decide (m < n) || (!decide (n < m) && chainLtR L rest)

theorem chainLtR_eq (L : Bool) (fs : List (Nat × Nat)) :
    chainLtR L fs = (chainLt fs || (!chainLt (fs.map Prod.swap) && L)) := by
  induction fs with
  | nil => simp [chainLt, chainLtR]
  | cons mn rest ih =>
      obtain ⟨m, n⟩ := mn
      by_cases h1 : m < n
      · simp [chainLt, chainLtR, h1, Nat.lt_asymm h1]
      · by_cases h2 : n < m
        · simp [chainLt, chainLtR, h1, h2]
        · simp [chainLt, chainLtR, h1, h2, ih]

/-- Field pairs of two times, most significant first. -/
def fieldPairs (a b : DateTime) : List (Nat × Nat) :=
  [(a.year, b.year), (a.month, b.month), (a.day, b.day),
   (a.hour, b.hour), (a.minute, b.minute), (a.second, b.second)]

/-- Chronological strict order on broken-down times. -/
def chronLt (a b : DateTime) : Bool := chainLt (fieldPairs a b)

/-- Bounds under which every timestamp field fits its zero-padded width. -/
def DateTime.valid (t : DateTime) : Prop :=
  t.year < 10000 ∧ t.month < 100 ∧ t.day < 100 ∧ t.hour < 100 ∧ t.minute < 100 ∧ t.second < 100

instance (t : DateTime) : Decidable t.valid := by unfold DateTime.valid; infer_instance

theorem fieldStepEnd (k m n : Nat) (hm : m < 10 ^ k) (hn : n < 10 ^ k) (x y : List Char) :
    lexLt (padChars k m ++ x) (padChars k n ++ y)
      = (decide (m < n) || (!decide (n < m) && lexLt x y)) := by
  rw [lexLt_append _ _ _ _ (by rw [padChars_length, padChars_length])]
  rw [padLt k m n hm hn, padLt k n m hn hm]

theorem stampLt (t1 t2 : DateTime) (r1 r2 : List Char) (h1 : t1.valid) (h2 : t2.valid) :
    lexLt (stampChars t1 ++ r1) (stampChars t2 ++ r2)
      = (chronLt t1 t2 || (!chronLt t2 t1 && lexLt r1 r2)) := by
  obtain ⟨hy1, hmo1, hd1, hh1, hmi1, hs1⟩ := h1
  obtain ⟨hy2, hmo2, hd2, hh2, hmi2, hs2⟩ := h2
  have key : lexLt (stampChars t1 ++ r1) (stampChars t2 ++ r2)
      = chainLtR (lexLt r1 r2) (fieldPairs t1 t2) := by
    simp only [stampChars, List.cons_append, List.append_assoc]
    rw [lexLt_cons_same]
    rw [fieldStepEnd 4 _ _ (by norm_num at hy1 ⊢; omega) (by norm_num at hy2 ⊢; omega)]
    rw [lexLt_cons_same]
    rw [fieldStepEnd 2 _ _ (by norm_num at hmo1 ⊢; omega) (by norm_num at hmo2 ⊢; omega)]
    rw [lexLt_cons_same]
    rw [fieldStepEnd 2 _ _ (by norm_num at hd1 ⊢; omega) (by norm_num at hd2 ⊢; omega)]
    rw [lexLt_cons_same]
    rw [fieldStepEnd 2 _ _ (by norm_num at hh1 ⊢; omega) (by norm_num at hh2 ⊢; omega)]
    rw [lexLt_cons_same]
    rw [fieldStepEnd 2 _ _ (by norm_num at hmi1 ⊢; omega) (by norm_num at hmi2 ⊢; omega)]
    rw [lexLt_cons_same]
    rw [fieldStepEnd 2 _ _ (by norm_num at hs1 ⊢; omega) (by norm_num at hs2 ⊢; omega)]
    simp [chainLtR, fieldPairs]
  rw [key, chainLtR_eq]
  have : (fieldPairs t1 t2).map Prod.swap = fieldPairs t2 t1 := by simp [fieldPairs]
  rw [this]
  rfl

theorem lexLt_append_same (s c d : List Char) : lexLt (s ++ c) (s ++ d) = lexLt c d := by
  rw [lexLt_append _ _ _ _ rfl, lexLt_irrefl]
  simp

/-- Host / pid segment of a backup filename, as the spec describes it:
an optional `.<hostlabel>`, `.<pid>`, or `.<hostlabel>-<pid>`. -/
def specBackupSeg (hostEnabled pidEnabled : Bool) (host : String) (pid : Nat) : String :=
  if hostEnabled then
    (if pidEnabled then "." ++ host ++ "-" ++ toString pid else "." ++ host)
  else
    (if pidEnabled then "." ++ toString pid else "")

theorem fileinfo_name_eq (w : FileWriter) (host : String) (pid : Nat) (now : GoTime) :
    (w.fileinfo host pid now).name
      = stemOf w.Filename ++ stampStr (if w.LocalTime then now.loc else now.utc)
        ++ (specBackupSeg w.HostName w.ProcessID host pid ++ filepathExt w.Filename) := by
  unfold FileWriter.fileinfo specBackupSeg
  cases w.HostName <;> cases w.ProcessID <;> simp [String.append_assoc]

theorem fileinfo_name_lt (w : FileWriter) (host : String) (pid : Nat) (t1 t2 : DateTime)
    (h1 : t1.valid) (h2 : t2.valid) :
    lexLt (w.fileinfo host pid ⟨t1, t1⟩).name.data (w.fileinfo host pid ⟨t2, t2⟩).name.data
      = chronLt t1 t2 := by
  rw [fileinfo_name_eq, fileinfo_name_eq]
  simp only [ite_self]
  simp only [String.data_append, List.append_assoc]
  rw [show (stampStr t1).data = stampChars t1 from rfl,
      show (stampStr t2).data = stampChars t2 from rfl]
  rw [lexLt_append_same]
  rw [stampLt t1 t2 _ _ h1 h2, lexLt_irrefl]
  simp

/-- Matching files that remain after the housekeeping removals: the sorted
matches with the removed leading segment dropped. -/
def pruneSurvivors (names : List String) (backups : Int) : List String :=
  (sortStrings names).drop (((names.length : Int) - backups - 1).toNat)

theorem pruneRemovals_eq_take (names : List String) (b : Int) :
    pruneRemovals names b = (sortStrings names).take (((names.length : Int) - b - 1).toNat) := by
  unfold pruneRemovals
  by_cases h : names.length > 0
  · rw [if_pos h]
  · rw [if_neg h]
    have hnil : names = [] := by
      cases names with
      | nil => rfl
      | cons a l => simp at h
    subst hnil
    simp [sortStrings, List.insertionSort]

theorem prune_split (names : List String) (b : Int) :
    pruneRemovals names b ++ pruneSurvivors names b = sortStrings names := by
  rw [pruneRemovals_eq_take]
  exact List.take_append_drop _ _

theorem prune_survivors_length (names : List String) (B : Nat) :
    (pruneSurvivors names (B : Int)).length = min names.length (B + 1) := by
  unfold pruneSurvivors
  rw [List.length_drop, (sortStrings_perm names).length_eq]
  omega

theorem prune_pairwise (names : List String) (b : Int) :
    ∀ x ∈ pruneRemovals names b, ∀ y ∈ pruneSurvivors names b, strLe x y := by
  have hs : List.Pairwise strLe (sortStrings names) := sortStrings_sorted names
  rw [← prune_split names b] at hs
  exact (List.pairwise_append.mp hs).2.2

theorem stampChars_length (t : DateTime) : (stampChars t).length = 20 := by
  simp [stampChars, padChars_length]

theorem filepathExt_data_le (s : String) : (filepathExt s).data.length ≤ s.data.length := by
  unfold filepathExt
  cases h : extLenAux s.data.reverse with
  | none => simp
  | some k =>
      show (s.data.drop (s.data.length - k)).length ≤ s.data.length
      rw [List.length_drop]
      omega

theorem stemOf_data_length (s : String) :
    (stemOf s).data.length = s.data.length - (filepathExt s).data.length := by
  unfold stemOf
  show (s.data.take (s.data.length - (filepathExt s).data.length)).length = _
  rw [List.length_take]
  omega

theorem fileinfo_name_ne (w : FileWriter) (host : String) (pid : Nat) (now : GoTime) :
    (w.fileinfo host pid now).name ≠ w.Filename := by
  intro h
  have hlen := congrArg (fun s => s.data.length) h
  rw [fileinfo_name_eq] at hlen
  simp only [String.data_append, List.length_append] at hlen
  rw [show (stampStr (if w.LocalTime then now.loc else now.utc)).data
        = stampChars (if w.LocalTime then now.loc else now.utc) from rfl] at hlen
  rw [stampChars_length] at hlen
  have h1 := filepathExt_data_le w.Filename
  have h2 := stemOf_data_length w.Filename
  omega

/-- Total length, in bytes, of a sequence of write payloads. -/
def sumLens (ps : List (List Nat)) : Int := (ps.map (fun p => (p.length : Int))).sum

theorem sumLens_cons (p : List Nat) (ps : List (List Nat)) :
    sumLens (p :: ps) = p.length + sumLens ps := by simp [sumLens]

theorem sumLens_nonneg (ps : List (List Nat)) : 0 ≤ sumLens ps := by
  induction ps with
  | nil => simp [sumLens]
  | cons p ps ih => rw [sumLens_cons]; positivity

theorem rotateStep_ok (w : FileWriter) (env : Env) (s : FileState)
    (hoe : env.openErr (w.fileinfo env.host env.pid env.now).name = none) :
    w.rotateStep env s =
      { err := none
        st := ⟨0, some (w.fileinfo env.host env.pid env.now).name⟩
        ops := FsOp.openF (w.fileinfo env.host env.pid env.now).name
            (w.fileinfo env.host env.pid env.now).flag (w.fileinfo env.host env.pid env.now).perm ::
          rotateHousekeeping s.file (w.fileinfo env.host env.pid env.now).name
            w.Filename w.MaxBackups w.ProcessID env } := by
  simp only [FileWriter.rotateStep, hoe]

theorem rotateStep_err (w : FileWriter) (env : Env) (s : FileState) (e : String)
    (hoe : env.openErr (w.fileinfo env.host env.pid env.now).name = some e) :
    w.rotateStep env s = { err := some e, st := ⟨s.size, none⟩, ops := [] } := by
  simp only [FileWriter.rotateStep, hoe]

theorem writeBody_no_rotate (w : FileWriter) (env : Env) (f : String) (size : Int)
    (p : List Nat) (pre : List FsOp) (hwe : env.writeErr = none)
    (hcond : ¬(w.MaxSize > 0 ∧ size + p.length > w.MaxSize ∧ w.Filename ≠ "")) :
    w.writeBody env f size p pre =
      { n := p.length, err := none, st := ⟨size + p.length, some f⟩
        ops := pre ++ [FsOp.writeF f p], rotations := 0 } := by
  simp only [FileWriter.writeBody, hwe]
  rw [if_neg hcond]

theorem writeBody_rotate (w : FileWriter) (env : Env) (f : String) (size : Int)
    (p : List Nat) (pre : List FsOp) (hwe : env.writeErr = none)
    (hcond : w.MaxSize > 0 ∧ size + p.length > w.MaxSize ∧ w.Filename ≠ "")
    (hoe : env.openErr (w.fileinfo env.host env.pid env.now).name = none) :
    w.writeBody env f size p pre =
      { n := p.length, err := none
        st := ⟨0, some (w.fileinfo env.host env.pid env.now).name⟩
        ops := (pre ++ [FsOp.writeF f p]) ++ FsOp.openF (w.fileinfo env.host env.pid env.now).name
            (w.fileinfo env.host env.pid env.now).flag (w.fileinfo env.host env.pid env.now).perm ::
          rotateHousekeeping (some f) (w.fileinfo env.host env.pid env.now).name
            w.Filename w.MaxBackups w.ProcessID env
        rotations := 1 } := by
  simp only [FileWriter.writeBody, hwe]
  rw [if_pos hcond, rotateStep_ok w env _ hoe]
  simp

theorem runWrites_append (w : FileWriter) (env : Env) (s : FileState)
    (as bs : List (List Nat)) :
    w.runWrites env s (as ++ bs) =
      ((w.runWrites env (w.runWrites env s as).1 bs).1,
       (w.runWrites env s as).2.1 + (w.runWrites env (w.runWrites env s as).1 bs).2.1,
       (w.runWrites env s as).2.2 && (w.runWrites env (w.runWrites env s as).1 bs).2.2) := by
  induction as generalizing s with
  | nil => simp [FileWriter.runWrites]
  | cons p ps ih =>
      simp only [List.cons_append, FileWriter.runWrites, List.append_eq, ih]
      simp [Nat.add_assoc, Bool.and_assoc]

theorem runWrites_no_rotation (w : FileWriter) (env : Env) (hwe : env.writeErr = none)
    (qs : List (List Nat)) : ∀ (f : String) (size : Int),
    size + sumLens qs ≤ w.MaxSize →
    w.runWrites env ⟨size, some f⟩ qs = (⟨size + sumLens qs, some f⟩, 0, true) := by
  induction qs with
  | nil =>
      intro f size _
      simp [FileWriter.runWrites, sumLens]
  | cons p ps ih =>
      intro f size hle
      have hps := sumLens_nonneg ps
      have hp0 : (0 : Int) ≤ p.length := by positivity
      rw [sumLens_cons] at hle
      have hcond : ¬(w.MaxSize > 0 ∧ size + p.length > w.MaxSize ∧ w.Filename ≠ "") := by
        intro hc
        rcases hc with ⟨_, hgt, _⟩
        omega
      have hstep : w.writeStep env ⟨size, some f⟩ p =
          { n := p.length, err := none, st := ⟨size + p.length, some f⟩
            ops := [] ++ [FsOp.writeF f p], rotations := 0 } := by
        rw [show w.writeStep env ⟨size, some f⟩ p = w.writeBody env f size p [] from rfl]
        exact writeBody_no_rotate w env f size p [] hwe hcond
      simp only [FileWriter.runWrites, hstep]
      rw [ih f (size + p.length) (by omega)]
      simp [sumLens_cons]
      omega

theorem writeStep_closed (w : FileWriter) (env : Env) (size0 : Int) (p : List Nat)
    (hf : w.Filename ≠ "") (hmk : env.mkdirErr = none)
    (hoe : env.openErr (w.fileinfo env.host env.pid env.now).name = none) :
    w.writeStep env ⟨size0, none⟩ p
      = w.writeBody env (w.fileinfo env.host env.pid env.now).name 0 p
          ([FsOp.openF (w.fileinfo env.host env.pid env.now).name
              (w.fileinfo env.host env.pid env.now).flag (w.fileinfo env.host env.pid env.now).perm,
            FsOp.remove w.Filename] ++
            (if w.ProcessID then []
             else [FsOp.symlink (filepathBase (w.fileinfo env.host env.pid env.now).name) w.Filename])) := by
  have hdir : (if w.EnsureDir then env.mkdirErr else none) = none := by
    cases w.EnsureDir <;> simp [hmk]
  simp only [FileWriter.writeStep, if_neg hf, hdir, FileWriter.createStep, hoe]

theorem writeStep_open_facts (w : FileWriter) (env : Env) (f : String) (size : Int) (p : List Nat)
    (hwe : env.writeErr = none) (hf : w.Filename ≠ "") (hM : 0 < w.MaxSize)
    (hoe : ∀ nm, env.openErr nm = none) :
    (w.writeStep env ⟨size, some f⟩ p).n = p.length
    ∧ (w.writeStep env ⟨size, some f⟩ p).err = none
    ∧ ((w.writeStep env ⟨size, some f⟩ p).rotations
        = if w.MaxSize < size + p.length then 1 else 0)
    ∧ ((w.writeStep env ⟨size, some f⟩ p).st.size
        = if w.MaxSize < size + p.length then 0 else size + p.length)
    ∧ ((w.writeStep env ⟨size, some f⟩ p).st.file
        = if w.MaxSize < size + p.length then some (w.fileinfo env.host env.pid env.now).name
          else some f) := by
  have hw0 : w.writeStep env ⟨size, some f⟩ p = w.writeBody env f size p [] := rfl
  by_cases hgt : w.MaxSize < size + p.length
  · have hcond : w.MaxSize > 0 ∧ size + (p.length : Int) > w.MaxSize ∧ w.Filename ≠ "" :=
      ⟨hM, hgt, hf⟩
    rw [hw0, writeBody_rotate w env f size p [] hwe hcond (hoe _)]
    simp [hgt]
  · have hcond : ¬(w.MaxSize > 0 ∧ size + (p.length : Int) > w.MaxSize ∧ w.Filename ≠ "") :=
      fun hc => hgt hc.2.1
    rw [hw0, writeBody_no_rotate w env f size p [] hwe hcond]
    simp [hgt]

/-- C1: with a non-empty `Filename` and positive `MaxSize`, a successful
`Write` appends the whole payload (also when it alone exceeds `MaxSize`),
adds its length to the byte counter, rotates exactly when the post-write
counter strictly exceeds `MaxSize`, leaves the counter at 0 right after a
successful rotation — and a write sequence whose cumulative size first
exceeds `MaxSize` at its last write performs exactly one rotation. -/
theorem claim_C1 (w : FileWriter) (env : Env)
    (hf : w.Filename ≠ "") (hM : 0 < w.MaxSize)
    (hwe : env.writeErr = none) (hoe : ∀ nm, env.openErr nm = none) (hmk : env.mkdirErr = none)
    (qs : List (List Nat)) (p : List Nat)
    (hqs : sumLens qs ≤ w.MaxSize) (hp : w.MaxSize < sumLens qs + p.length) :
    (∀ (f : String) (size : Int) (q : List Nat),
      (w.writeStep env ⟨size, some f⟩ q).n = q.length
      ∧ (w.writeStep env ⟨size, some f⟩ q).err = none
      ∧ ((w.writeStep env ⟨size, some f⟩ q).rotations
          = if w.MaxSize < size + q.length then 1 else 0)
      ∧ ((w.writeStep env ⟨size, some f⟩ q).st.size
          = if w.MaxSize < size + q.length then 0 else size + q.length))
    ∧ (w.runWrites env ⟨0, none⟩ (qs ++ [p])).2.1 = 1
    ∧ (w.runWrites env ⟨0, none⟩ (qs ++ [p])).1.size = 0
    ∧ (w.runWrites env ⟨0, none⟩ (qs ++ [p])).2.2 = true := by
  constructor
  · intro f size q
    obtain ⟨h1, h2, h3, h4, _⟩ := writeStep_open_facts w env f size q hwe hf hM hoe
    exact ⟨h1, h2, h3, h4⟩
  · rcases qs with _ | ⟨q, qs'⟩
    · have h0 : sumLens ([] : List (List Nat)) = 0 := rfl
      rw [h0] at hp
      have hcond : w.MaxSize > 0 ∧ (0 : Int) + (p.length : Int) > w.MaxSize ∧ w.Filename ≠ "" :=
        ⟨hM, by omega, hf⟩
      have hw := writeStep_closed w env 0 p hf hmk (hoe _)
      rw [writeBody_rotate w env _ 0 p _ hwe hcond (hoe _)] at hw
      simp only [List.nil_append, FileWriter.runWrites, hw]
      simp
    · have hq0 : (0 : Int) ≤ sumLens qs' := sumLens_nonneg qs'
      have hqlen : (0 : Int) ≤ q.length := by positivity
      rw [sumLens_cons] at hqs hp
      have hcondq : ¬(w.MaxSize > 0 ∧ (0 : Int) + (q.length : Int) > w.MaxSize ∧ w.Filename ≠ "") := by
        intro hc
        rcases hc with ⟨_, hgt, _⟩
        omega
      have hwq := writeStep_closed w env 0 q hf hmk (hoe _)
      rw [writeBody_no_rotate w env _ 0 q _ hwe hcondq] at hwq
      simp only [zero_add] at hwq
      have hrun1 : w.runWrites env ⟨0, none⟩ (q :: qs')
          = (⟨(q.length : Int) + sumLens qs',
              some (w.fileinfo env.host env.pid env.now).name⟩, 0, true) := by
        simp only [FileWriter.runWrites, hwq]
        rw [runWrites_no_rotation w env hwe qs'
          (w.fileinfo env.host env.pid env.now).name (q.length : Int) (by omega)]
        simp
      have hcondp : w.MaxSize > 0 ∧ ((q.length : Int) + sumLens qs') + (p.length : Int) > w.MaxSize
          ∧ w.Filename ≠ "" := ⟨hM, by omega, hf⟩
      have hwp : w.writeStep env ⟨(q.length : Int) + sumLens qs',
          some (w.fileinfo env.host env.pid env.now).name⟩ p
          = w.writeBody env (w.fileinfo env.host env.pid env.now).name
              ((q.length : Int) + sumLens qs') p [] := rfl
      rw [writeBody_rotate w env _ _ p _ hwe hcondp (hoe _)] at hwp
      rw [show (q :: qs') ++ [p] = (q :: qs') ++ [p] from rfl, runWrites_append, hrun1]
      simp only [FileWriter.runWrites, hwp]
      simp

/-- Symlink-op recognizer, used to state symlink-maintenance claims. -/
def isSymlinkOp : FsOp → Bool := fun op =>
  match op with
  | FsOp.symlink _ _ => true
  | _ => false

theorem filter_symlink_map_remove (l : List String) :
    (l.map FsOp.remove).filter isSymlinkOp = [] := by
  induction l with
  | nil => rfl
  | cons a l ih => simp [isSymlinkOp, ih]

theorem writeF_not_in_housekeeping (nm : String) (q : List Nat) (old : Option String)
    (newn fn : String) (b : Int) (procID : Bool) (env : Env) :
    FsOp.writeF nm q ∉ rotateHousekeeping old newn fn b procID env := by
  rcases old with _ | f <;> by_cases hp : procID <;>
    by_cases hc : env.sudoUID ≠ 0 ∧ env.sudoGID ≠ 0 ∧ env.euid = 0 <;>
    simp [rotateHousekeeping, hp, hc]

theorem symlink_not_in_housekeeping (tgt lp : String) (old : Option String)
    (newn fn : String) (b : Int) (env : Env) :
    FsOp.symlink tgt lp ∉ rotateHousekeeping old newn fn b true env := by
  rcases old with _ | f <;>
    by_cases hc : env.sudoUID ≠ 0 ∧ env.sudoGID ≠ 0 ∧ env.euid = 0 <;>
    simp [rotateHousekeeping, hc]

/-- C2 (amended): when opening the new backup file fails during rotation,
the error is returned and the byte counter is kept, but the handle
reference is cleared (it takes the nil result of `os.OpenFile`) and no
housekeeping runs; a subsequent successful `Write` therefore reopens a
fresh timestamp-named file via `create` — it never writes to the old
handle. -/
theorem claim_C2_amended (w : FileWriter) (env : Env) (s : FileState) (e : String)
    (hoe : env.openErr (w.fileinfo env.host env.pid env.now).name = some e) :
    w.rotateStep env s = { err := some e, st := ⟨s.size, none⟩, ops := [] }
    ∧ (∀ (env2 : Env) (p : List Nat), w.Filename ≠ "" → env2.mkdirErr = none →
        (∀ nm, env2.openErr nm = none) → env2.writeErr = none →
        (w.writeStep env2 ⟨s.size, none⟩ p).st.file
            = some (w.fileinfo env2.host env2.pid env2.now).name
        ∧ (∀ nm q, FsOp.writeF nm q ∈ (w.writeStep env2 ⟨s.size, none⟩ p).ops
            → nm = (w.fileinfo env2.host env2.pid env2.now).name)) := by
  constructor
  · exact rotateStep_err w env s e hoe
  · intro env2 p hf hmk hoe2 hwe2
    rw [writeStep_closed w env2 s.size p hf hmk (hoe2 _)]
    by_cases hcond : w.MaxSize > 0 ∧ (0 : Int) + (p.length : Int) > w.MaxSize ∧ w.Filename ≠ ""
    · rw [writeBody_rotate w env2 _ 0 p _ hwe2 hcond (hoe2 _)]
      refine ⟨rfl, ?_⟩
      intro nm q hmem
      cases hP : w.ProcessID with
      | false =>
          have hnk := writeF_not_in_housekeeping nm q
            (some (w.fileinfo env2.host env2.pid env2.now).name)
            (w.fileinfo env2.host env2.pid env2.now).name w.Filename w.MaxBackups false env2
          simp [hP, hnk] at hmem
          exact hmem.1
      | true =>
          have hnk := writeF_not_in_housekeeping nm q
            (some (w.fileinfo env2.host env2.pid env2.now).name)
            (w.fileinfo env2.host env2.pid env2.now).name w.Filename w.MaxBackups true env2
          simp [hP, hnk] at hmem
          exact hmem.1
    · rw [writeBody_no_rotate w env2 _ 0 p _ hwe2 hcond]
      refine ⟨rfl, ?_⟩
      intro nm q hmem
      by_cases hp : w.ProcessID <;> simp [hp] at hmem <;> exact hmem.1

/-- Concrete writer used in counterexamples. -/
def cexW : FileWriter :=
  { Filename := "app.log", MaxSize := 100, MaxBackups := 2, FileMode := 0,
    EnsureDir := false, LocalTime := false, HostName := false, ProcessID := false }

/-- Concrete environment in which opening any file fails. -/
def cexEnvOpenFail : Env :=
  { now := ⟨⟨2021, 7, 10, 5, 35, 54⟩, ⟨2021, 7, 10, 5, 35, 54⟩⟩, mkdirErr := none,
    openErr := fun _ => some "open failed", writeErr := none, writeN := 0,
    closeErr := fun _ => none, sudoUID := 0, sudoGID := 0, euid := 1000,
    globMatches := [], host := "h", pid := 7 }

/-- C2 (counterexample): when opening the new backup file fails, the
writer does not retain its previous open handle — the handle field is
cleared, so the state changes and a subsequent write cannot go to the old
handle. -/
theorem claim_C2_counterexample :
    (cexW.rotateStep cexEnvOpenFail ⟨5, some "app.2021-07-09T00-00-00.log"⟩).st.file = none
    ∧ (cexW.rotateStep cexEnvOpenFail ⟨5, some "app.2021-07-09T00-00-00.log"⟩).st
        ≠ (⟨5, some "app.2021-07-09T00-00-00.log"⟩ : FileState)
    ∧ (cexW.rotateStep cexEnvOpenFail ⟨5, some "app.2021-07-09T00-00-00.log"⟩).err
        = some "open failed" := by
  refine ⟨rfl, ?_, rfl⟩
  intro h
  have h2 := congrArg FileState.file h
  rw [show (cexW.rotateStep cexEnvOpenFail
      ⟨5, some "app.2021-07-09T00-00-00.log"⟩).st.file = none from rfl] at h2
  exact Option.noConfusion h2

/-- C7: `Close` closes the open handle when one exists, resets the byte
counter to 0 and clears the handle reference; on an already-closed writer
it is a no-op returning nil, and a second `Close` always returns nil —
so double-`Close` yields nil success both times. -/
theorem claim_C7 (env env2 : Env) (s : FileState) :
    (∀ f, s.file = some f →
      FileWriter.closeStep env s = (env.closeErr f, ⟨0, none⟩, [FsOp.closeF f]))
    ∧ (s.file = none → FileWriter.closeStep env s = (none, s, []))
    ∧ (FileWriter.closeStep env2 (FileWriter.closeStep env s).2.1).1 = none
    ∧ (s.file = none → (FileWriter.closeStep env s).1 = none
        ∧ (FileWriter.closeStep env2 (FileWriter.closeStep env s).2.1).1 = none) := by
  obtain ⟨size, file⟩ := s
  cases file with
  | none => simp [FileWriter.closeStep]
  | some f => simp [FileWriter.closeStep]

/-- C5: a successful rotation's housekeeping recreates the base-path
symlink, pointing by base name to the new backup file, exactly when
`ProcessID` is disabled (right after removing the base path); with
`ProcessID` enabled no symlink operation is emitted at all. -/
theorem claim_C5 (w : FileWriter) (env : Env) (s : FileState)
    (hoe : env.openErr (w.fileinfo env.host env.pid env.now).name = none) :
    (w.rotateStep env s).err = none
    ∧ ((w.rotateStep env s).ops.filter isSymlinkOp
        = if w.ProcessID then []
          else [FsOp.symlink (filepathBase (w.fileinfo env.host env.pid env.now).name) w.Filename])
    ∧ FsOp.remove w.Filename ∈ (w.rotateStep env s).ops
    ∧ (w.ProcessID = false → ∃ pre post, (w.rotateStep env s).ops
        = pre ++ FsOp.remove w.Filename ::
            FsOp.symlink (filepathBase (w.fileinfo env.host env.pid env.now).name) w.Filename :: post) := by
  rw [rotateStep_ok w env s hoe]
  refine ⟨rfl, ?_, ?_, ?_⟩
  · cases hP : w.ProcessID <;>
      rcases s.file with _ | f <;>
      by_cases hc : env.sudoUID ≠ 0 ∧ env.sudoGID ≠ 0 ∧ env.euid = 0 <;>
      simp [rotateHousekeeping, isSymlinkOp, hc, List.filter_append, filter_symlink_map_remove]
  · rcases s.file with _ | f <;> by_cases hP : w.ProcessID <;> simp [rotateHousekeeping, hP]
  · intro hP
    rcases s.file with _ | f
    · refine ⟨[FsOp.openF (w.fileinfo env.host env.pid env.now).name
          (w.fileinfo env.host env.pid env.now).flag (w.fileinfo env.host env.pid env.now).perm],
        (if env.sudoUID ≠ 0 ∧ env.sudoGID ≠ 0 ∧ env.euid = 0 then
            [FsOp.lchown w.Filename env.sudoUID env.sudoGID,
             FsOp.chown (w.fileinfo env.host env.pid env.now).name env.sudoUID env.sudoGID]
          else []) ++ (pruneRemovals env.globMatches w.MaxBackups).map FsOp.remove, ?_⟩
      simp [rotateHousekeeping, hP]
    · refine ⟨[FsOp.openF (w.fileinfo env.host env.pid env.now).name
          (w.fileinfo env.host env.pid env.now).flag (w.fileinfo env.host env.pid env.now).perm,
          FsOp.closeF f],
        (if env.sudoUID ≠ 0 ∧ env.sudoGID ≠ 0 ∧ env.euid = 0 then
            [FsOp.lchown w.Filename env.sudoUID env.sudoGID,
             FsOp.chown (w.fileinfo env.host env.pid env.now).name env.sudoUID env.sudoGID]
          else []) ++ (pruneRemovals env.globMatches w.MaxBackups).map FsOp.remove, ?_⟩
      simp [rotateHousekeeping, hP]

/-- C10: the first `Write` on a closed writer with a non-empty `Filename`
opens a fresh timestamp-named file (whose name always differs from
`Filename`), never writes to a file literally named `Filename`, removes
whatever sits at the base path right after opening, and installs the
base-path symlink exactly when `ProcessID` is disabled. -/
theorem claim_C10 (w : FileWriter) (env : Env) (size0 : Int) (p : List Nat)
    (hf : w.Filename ≠ "") (hmk : env.mkdirErr = none)
    (hoe : ∀ nm, env.openErr nm = none) (hwe : env.writeErr = none) :
    (w.fileinfo env.host env.pid env.now).name ≠ w.Filename
    ∧ (w.writeStep env ⟨size0, none⟩ p).st.file = some (w.fileinfo env.host env.pid env.now).name
    ∧ (∀ q, FsOp.writeF w.Filename q ∉ (w.writeStep env ⟨size0, none⟩ p).ops)
    ∧ (w.writeStep env ⟨size0, none⟩ p).ops.take 2
        = [FsOp.openF (w.fileinfo env.host env.pid env.now).name
             (w.fileinfo env.host env.pid env.now).flag (w.fileinfo env.host env.pid env.now).perm,
           FsOp.remove w.Filename]
    ∧ (w.ProcessID = false →
        FsOp.symlink (filepathBase (w.fileinfo env.host env.pid env.now).name) w.Filename
          ∈ (w.writeStep env ⟨size0, none⟩ p).ops)
    ∧ (w.ProcessID = true → ∀ tgt lp, FsOp.symlink tgt lp ∉ (w.writeStep env ⟨size0, none⟩ p).ops) := by
  have hne := fileinfo_name_ne w env.host env.pid env.now
  rw [writeStep_closed w env size0 p hf hmk (hoe _)]
  by_cases hcond : w.MaxSize > 0 ∧ (0 : Int) + (p.length : Int) > w.MaxSize ∧ w.Filename ≠ ""
  · rw [writeBody_rotate w env _ 0 p _ hwe hcond (hoe _)]
    refine ⟨hne, rfl, ?_, ?_, ?_, ?_⟩
    · intro q hmem
      have hnk := writeF_not_in_housekeeping w.Filename q
        (some (w.fileinfo env.host env.pid env.now).name)
        (w.fileinfo env.host env.pid env.now).name w.Filename w.MaxBackups w.ProcessID env
      cases hP : w.ProcessID <;> rw [hP] at hnk <;> simp [hP, hnk] at hmem <;>
        exact hne hmem.1.symm
    · cases hP : w.ProcessID <;> simp [hP]
    · intro hP
      simp [hP]
    · intro hP tgt lp hmem
      have hnk := symlink_not_in_housekeeping tgt lp
        (some (w.fileinfo env.host env.pid env.now).name)
        (w.fileinfo env.host env.pid env.now).name w.Filename w.MaxBackups env
      simp [hP, hnk] at hmem
  · rw [writeBody_no_rotate w env _ 0 p _ hwe hcond]
    refine ⟨hne, rfl, ?_, ?_, ?_, ?_⟩
    · intro q hmem
      cases hP : w.ProcessID <;> simp [hP] at hmem <;> exact hne hmem.1.symm
    · cases hP : w.ProcessID <;> simp [hP]
    · intro hP
      simp [hP]
    · intro hP tgt lp hmem
      simp [hP] at hmem

/-- First non-nil error of a result list (the spec's aggregation rule for
`WriteEntry`: "the reported error is the first error encountered"). -/
def firstSome : List (Option String) → Option String
  | [] => none
  | some e :: _ => some e
  | none :: rest => firstSome rest

/-- Dispatch list as the spec words it: the writers of the tags present in
the map, in tag order; when none matched, the `"default"` writer alone
when present. -/
def specDispatches (writes : List (String × (Nat × Option String))) (tags : List String) :
    List (Nat × Option String) :=
  if (tags.filterMap (fun t => writes.lookup t)).isEmpty then
    match writes.lookup "default" with
    | some r => [r]
    | none => []
  else tags.filterMap (fun t => writes.lookup t)

/-- Fan-out `WriteEntry` as the spec describes it: no-op success on empty
tags or an empty map; otherwise the byte count of the last dispatched
write and the first error across the dispatches. -/
def specWriteEntry (writes : List (String × (Nat × Option String))) (tags : List String) :
    Nat × Option String :=
  if tags = [] ∨ writes = [] then (0, none)
  else
    (((specDispatches writes tags).getLast?.map Prod.fst).getD 0,
     firstSome ((specDispatches writes tags).map Prod.snd))

theorem getLast?_cons_isSome {α : Type} (a : α) (l : List α) : ((a :: l).getLast?).isSome = true := by
  induction l generalizing a with
  | nil => rfl
  | cons b l ih => rw [List.getLast?_cons_cons]; exact ih b

theorem getLast_getD_cons {α β : Type} (f : α → β) (r : α) (M : List α) (n : β) :
    (((r :: M).getLast?).map f).getD n = ((M.getLast?).map f).getD (f r) := by
  cases M with
  | nil => rfl
  | cons a M =>
      rw [List.getLast?_cons_cons]
      obtain ⟨x, hx⟩ := Option.isSome_iff_exists.mp (getLast?_cons_isSome a M)
      rw [hx]
      rfl

theorem dispatchLoop_eq (writes : List (String × (Nat × Option String))) (ts : List String)
    (n : Nat) (err : Option String) (find : Bool) :
    dispatchLoop writes ts (n, err, find)
      = (((ts.filterMap (fun t => writes.lookup t)).getLast?.map Prod.fst).getD n,
         (match err with
          | some e => some e
          | none => firstSome ((ts.filterMap (fun t => writes.lookup t)).map Prod.snd)),
         find || !(ts.filterMap (fun t => writes.lookup t)).isEmpty) := by
  induction ts generalizing n err find with
  | nil => cases err <;> simp [dispatchLoop, firstSome]
  | cons t ts ih =>
      cases hl : writes.lookup t with
      | none => simp [dispatchLoop, hl, List.filterMap_cons, ih]
      | some r =>
          obtain ⟨n1, e1⟩ := r
          rw [show dispatchLoop writes (t :: ts) (n, err, find)
              = dispatchLoop writes ts
                  (n1, (match e1, err with | some e, none => some e | _, _ => err), true) by
            simp only [dispatchLoop, hl]
            cases e1 <;> cases err <;> rfl]
          rw [ih]
          simp only [List.filterMap_cons, hl]
          refine congrArg₂ _ ?_ (congrArg₂ _ ?_ ?_)
          · rw [getLast_getD_cons]
          · cases err <;> cases e1 <;> simp [firstSome]
          · cases find <;> rfl

/-- C4: the fan-out `WriteEntry` behaves exactly as specified — no-op
success on an empty tag set or empty map; otherwise it dispatches to the
writer of each tag present in the map, falling back to the `"default"`
writer exactly when no tag matched; the byte count reported is that of
the last dispatch and the error the first one encountered, later
dispatches still being performed. -/
theorem claim_C4 (writes : List (String × (Nat × Option String))) (tags : List String) :
    MultiFileWriter.writeEntryStep writes tags = specWriteEntry writes tags := by
  unfold MultiFileWriter.writeEntryStep specWriteEntry
  by_cases ht : tags.length < 1
  · have htn : tags = [] := by
      cases tags with
      | nil => rfl
      | cons a l => simp at ht
    simp [htn]
  · by_cases hw : writes.length < 1
    · have hwn : writes = [] := by
        cases writes with
        | nil => rfl
        | cons a l => simp at hw
      have htn : ¬tags = [] := by
        cases tags with
        | nil => simp at ht
        | cons a l => simp
      simp [hwn, htn, ht]
    · have hne : ¬(tags = [] ∨ writes = []) := by
        rintro (h | h)
        · rw [h] at ht; simp at ht
        · rw [h] at hw; simp at hw
      rw [if_neg ht, if_neg hw, if_neg hne, dispatchLoop_eq]
      cases hM : (tags.filterMap (fun t => writes.lookup t)).isEmpty
      · simp only [specDispatches, hM, Bool.not_false, Bool.false_or, if_neg (by simp : ¬(false = true))]
        rfl
      · have hMnil : tags.filterMap (fun t => writes.lookup t) = [] :=
          List.isEmpty_iff.mp hM
        simp only [specDispatches, hM, hMnil, Bool.not_true, Bool.false_or, if_pos rfl]
        cases hd : writes.lookup "default" with
        | none => simp [firstSome]
        | some r =>
            obtain ⟨n1, e1⟩ := r
            cases e1 <;> simp [firstSome]

/-- Last non-nil error of a result list: the error the last failing close
leaves in `err`. -/
def lastSomeElem (rs : List (Option String)) : Option String := firstSome rs.reverse

/-- Close results of the writers that expose a close capability, in
iteration order. -/
def closerResults (l : List (String × MWriter)) : List (Option String) :=
  l.filterMap (fun kv => match kv.2 with | MWriter.closable r => some r | _ => none)

/-- Names of the writers whose `Close` gets called, in iteration order. -/
def closerNames (l : List (String × MWriter)) : List String :=
  l.filterMap (fun kv => match kv.2 with | MWriter.closable _ => some kv.1 | _ => none)

theorem firstSome_append (xs ys : List (Option String)) :
    firstSome (xs ++ ys)
      = (match firstSome xs with | some e => some e | none => firstSome ys) := by
  induction xs with
  | nil => simp [firstSome]
  | cons x xs ih =>
      cases x with
      | none => simp [firstSome, ih]
      | some e => simp [firstSome]

theorem lastSomeElem_cons (r : Option String) (rs : List (Option String)) :
    lastSomeElem (r :: rs)
      = (match lastSomeElem rs with
         | some e => some e
         | none => match r with | some e => some e | none => none) := by
  unfold lastSomeElem
  rw [List.reverse_cons, firstSome_append]
  cases firstSome rs.reverse <;> cases r <;> simp [firstSome]

theorem closeStep_fold (l : List (String × MWriter)) : ∀ (a : Option String) (ns : List String),
    l.foldl (fun (acc : Option String × List String) kv =>
        match kv.2 with
        | MWriter.nilW => acc
        | MWriter.plain => acc
        | MWriter.closable cres =>
            ((match cres with | some e => some e | none => acc.1), acc.2 ++ [kv.1])) (a, ns)
      = ((match lastSomeElem (closerResults l) with | some e => some e | none => a),
         ns ++ closerNames l) := by
  induction l with
  | nil =>
      intro a ns
      simp [closerResults, closerNames, lastSomeElem, firstSome]
  | cons kv l ih =>
      intro a ns
      obtain ⟨k, wv⟩ := kv
      cases wv with
      | nilW =>
          rw [List.foldl_cons]
          simp only [ih]
          simp [closerResults, closerNames]
      | plain =>
          rw [List.foldl_cons]
          simp only [ih]
          simp [closerResults, closerNames]
      | closable cres =>
          rw [List.foldl_cons]
          simp only [ih]
          have hr : closerResults ((k, MWriter.closable cres) :: l) = cres :: closerResults l := by
            simp [closerResults]
          have hn : closerNames ((k, MWriter.closable cres) :: l) = k :: closerNames l := by
            simp [closerNames]
          rw [hr, hn, lastSomeElem_cons]
          cases lastSomeElem (closerResults l) <;> cases cres <;> simp

/-- C6 (amended): the fan-out `Close` calls `Close` on every writer with
a close capability (nil and close-less writers skipped, later closes
still attempted after an error) and returns the LAST non-nil close error
— not the first; a nil map is a no-op success. -/
theorem claim_C6_amended (l : List (String × MWriter)) :
    MultiFileWriter.closeStep (some l)
      = (lastSomeElem (closerResults l), closerNames l)
    ∧ MultiFileWriter.closeStep none = (none, []) := by
  constructor
  · show l.foldl _ (none, []) = _
    rw [closeStep_fold l none []]
    cases h : lastSomeElem (closerResults l) <;> simp
  · rfl

/-- C6 (counterexample): with two closers failing in iteration order with
errors "e1" then "e2", `Close` attempts both but returns "e2" — the last
error, not the first as claimed. -/
theorem claim_C6_counterexample :
    (MultiFileWriter.closeStep (some [("a", MWriter.closable (some "e1")),
        ("b", MWriter.closable (some "e2"))])).1 = some "e2"
    ∧ (MultiFileWriter.closeStep (some [("a", MWriter.closable (some "e1")),
        ("b", MWriter.closable (some "e2"))])).1 ≠ some "e1"
    ∧ (MultiFileWriter.closeStep (some [("a", MWriter.closable (some "e1")),
        ("b", MWriter.closable (some "e2"))])).2 = ["a", "b"] := by
  refine ⟨rfl, ?_, rfl⟩
  intro h
  rw [show (MultiFileWriter.closeStep (some [("a", MWriter.closable (some "e1")),
      ("b", MWriter.closable (some "e2"))])).1 = some "e2" from rfl] at h
  have := Option.some.inj h
  have h2 := congrArg String.data this
  simp at h2

/-- C8: a backup filename is the base path without its extension, then
the `.YYYY-MM-DDTHH-MM-SS` timestamp of the rotation time (UTC unless
`LocalTime`), then the optional host / pid segment, then the original
extension; files are opened append+create+write-only with permission
`FileMode`, defaulting to 0644 when unset. -/
theorem claim_C8 (w : FileWriter) (host : String) (pid : Nat) (now : GoTime) :
    (w.fileinfo host pid now).name
      = stemOf w.Filename ++ stampStr (if w.LocalTime then now.loc else now.utc)
        ++ (specBackupSeg w.HostName w.ProcessID host pid ++ filepathExt w.Filename)
    ∧ (w.fileinfo host pid now).flag = [OFlag.oAppend, OFlag.oCreate, OFlag.oWronly]
    ∧ (w.fileinfo host pid now).perm = (if w.FileMode = 0 then 0o644 else w.FileMode)
    ∧ stampStr ⟨2016, 11, 4, 18, 30, 0⟩ = ".2016-11-04T18-30-00" :=
  ⟨fileinfo_name_eq w host pid now, rfl, rfl, by decide⟩

/-- Spec-side concatenation of the readable machine-identifier file
contents, in platform order, unreadable files omitted. -/
def specConcat : List String → String
  | [] => ""
  | s :: rest => s ++ specConcat rest

theorem foldl_readFile_concat (readFile : String → Option String) (files : List String) :
    ∀ d : String, files.foldl (fun d f =>
        match readFile f with | some b => d ++ b | none => d) d
      = d ++ specConcat (files.filterMap readFile) := by
  induction files with
  | nil =>
      intro d
      simp [specConcat]
  | cons f fs ih =>
      intro d
      cases h : readFile f with
      | none => simp [h, ih, specConcat]
      | some b => simp [h, ih, specConcat, String.append_assoc]

/-- C9: the host identity is the OS hostname unless that is unavailable
or `localhost`-prefixed, in which case a synthetic
`localhost-<random>` label is used; the fingerprint is the digest of the
label concatenated with the contents of exactly the readable
machine-identifier files, every read failure tolerated by omission. -/
theorem claim_C9 {α : Type} (digest : String → α) (hostRes : Option String) (rnd : Nat)
    (goos : String) (readFile : String → Option String) :
    (hostRes = none →
      (hostIdentity digest hostRes rnd goos readFile).1 = "localhost-" ++ toString rnd)
    ∧ (∀ h, hostRes = some h → goHasPrefix h "localhost" = true →
      (hostIdentity digest hostRes rnd goos readFile).1 = "localhost-" ++ toString rnd)
    ∧ (∀ h, hostRes = some h → goHasPrefix h "localhost" = false →
      (hostIdentity digest hostRes rnd goos readFile).1 = h)
    ∧ (hostIdentity digest hostRes rnd goos readFile).2
        = digest ((hostIdentity digest hostRes rnd goos readFile).1
            ++ specConcat ((seedFiles goos).filterMap readFile)) := by
  refine ⟨?_, ?_, ?_, ?_⟩
  · intro h
    rw [h]
    rfl
  · intro h hh hpre
    rw [hh]
    simp [hostIdentity, hpre]
  · intro h hh hpre
    rw [hh]
    simp [hostIdentity, hpre]
  · show (hostIdentity digest hostRes rnd goos readFile).2 = _
    unfold hostIdentity
    dsimp only
    rw [foldl_readFile_concat]

/-- C3: after the housekeeping prune with retention count `B ≥ 0`, the
matches split into the removed lexicographically-least ones and the
surviving `min(n, B+1)` greatest ones (every removed name is `<=` every
survivor); with `B = 0` a single file survives; and for backup names
produced by `fileinfo`, lexicographic order coincides with chronological
order of the rotation times. -/
theorem claim_C3 (names : List String) (B : Nat) (w : FileWriter) (host : String) (pid : Nat)
    (t1 t2 : DateTime) (h1 : t1.valid) (h2 : t2.valid) :
    pruneRemovals names (B : Int) ++ pruneSurvivors names (B : Int) = sortStrings names
    ∧ (sortStrings names).Perm names
    ∧ (pruneSurvivors names (B : Int)).length = min names.length (B + 1)
    ∧ (∀ x ∈ pruneRemovals names (B : Int), ∀ y ∈ pruneSurvivors names (B : Int), strLe x y)
    ∧ (B = 0 → (pruneSurvivors names (B : Int)).length ≤ 1)
    ∧ (∀ (env : Env) (s : FileState),
        env.openErr (w.fileinfo env.host env.pid env.now).name = none →
        ∃ pre, (w.rotateStep env s).ops
          = pre ++ (pruneRemovals env.globMatches w.MaxBackups).map FsOp.remove)
    ∧ lexLt (w.fileinfo host pid ⟨t1, t1⟩).name.data (w.fileinfo host pid ⟨t2, t2⟩).name.data
        = chronLt t1 t2 := by
  refine ⟨prune_split _ _, sortStrings_perm _, prune_survivors_length _ _,
    prune_pairwise _ _, ?_, ?_, fileinfo_name_lt w host pid t1 t2 h1 h2⟩
  · intro hB
    subst hB
    have hl := prune_survivors_length names 0
    rw [hl]
    omega
  · intro env s hoe
    rw [rotateStep_ok w env s hoe]
    refine ⟨FsOp.openF (w.fileinfo env.host env.pid env.now).name
        (w.fileinfo env.host env.pid env.now).flag (w.fileinfo env.host env.pid env.now).perm ::
        ((match s.file with | some f => [FsOp.closeF f] | none => []) ++
         [FsOp.remove w.Filename] ++
         (if w.ProcessID then []
          else [FsOp.symlink (filepathBase (w.fileinfo env.host env.pid env.now).name) w.Filename]) ++
         (if env.sudoUID ≠ 0 ∧ env.sudoGID ≠ 0 ∧ env.euid = 0 then
            [FsOp.lchown w.Filename env.sudoUID env.sudoGID,
             FsOp.chown (w.fileinfo env.host env.pid env.now).name env.sudoUID env.sudoGID]
          else [])), ?_⟩
    simp [rotateHousekeeping, List.append_assoc]

/-- Concrete writer with a 3-byte limit, used by witnesses. -/
def okW : FileWriter :=
  { Filename := "app.log", MaxSize := 3, MaxBackups := 2, FileMode := 0,
    EnsureDir := false, LocalTime := false, HostName := false, ProcessID := false }

/-- Concrete rotation time used by witnesses. -/
def okT : DateTime := ⟨2021, 7, 10, 5, 35, 54⟩

/-- Concrete rotation time one second later. -/
def okT2 : DateTime := ⟨2021, 7, 10, 5, 35, 55⟩

/-- Concrete environment where every system call succeeds. -/
def okEnv : Env :=
  { now := ⟨okT, okT⟩, mkdirErr := none, openErr := fun _ => none, writeErr := none,
    writeN := 0, closeErr := fun _ => none, sudoUID := 0, sudoGID := 0, euid := 1000,
    globMatches := ["app.2021-01-01T00-00-00.log", "app.2021-01-02T00-00-00.log"],
    host := "myhost", pid := 42 }

/-- C1 witness: writing 2 then 2 bytes against limit 3 rotates exactly
once, ends with a zero counter and no error. -/
theorem claim_C1_witness :
    (okW.Filename ≠ "" ∧ 0 < okW.MaxSize ∧ sumLens [[1, 2]] ≤ okW.MaxSize
      ∧ okW.MaxSize < sumLens [[1, 2]] + ([3, 4] : List Nat).length)
    ∧ (okW.runWrites okEnv ⟨0, none⟩ ([[1, 2]] ++ [[3, 4]])).2.1 = 1
    ∧ (okW.runWrites okEnv ⟨0, none⟩ ([[1, 2]] ++ [[3, 4]])).1.size = 0
    ∧ (okW.runWrites okEnv ⟨0, none⟩ ([[1, 2]] ++ [[3, 4]])).2.2 = true :=
  ⟨⟨by decide, by decide, by decide, by decide⟩,
   (claim_C1 okW okEnv (by decide) (by decide) rfl (fun _ => rfl) rfl
     ([[1, 2]] : List (List Nat)) ([3, 4] : List Nat) (by decide) (by decide)).2⟩

/-- C2 witness: a failing rotation at a concrete writer returns the open
error, keeps the counter at 5 and clears the handle. -/
theorem claim_C2_witness :
    cexEnvOpenFail.openErr
      (cexW.fileinfo cexEnvOpenFail.host cexEnvOpenFail.pid cexEnvOpenFail.now).name
        = some "open failed"
    ∧ cexW.rotateStep cexEnvOpenFail ⟨5, some "old.log"⟩
        = { err := some "open failed", st := ⟨5, none⟩, ops := [] } :=
  ⟨rfl, (claim_C2_amended cexW cexEnvOpenFail ⟨5, some "old.log"⟩ "open failed" rfl).1⟩

/-- C3 witness: with three matches and retention 1, removals and
survivors split the sorted matches, two files survive, and the
lexicographic order of two concrete backup names agrees with the
chronological order of their rotation times. -/
theorem claim_C3_witness :
    (okT.valid ∧ okT2.valid)
    ∧ pruneRemovals ["b", "a", "c"] ((1 : Nat) : Int)
        ++ pruneSurvivors ["b", "a", "c"] ((1 : Nat) : Int) = sortStrings ["b", "a", "c"]
    ∧ (pruneSurvivors ["b", "a", "c"] ((1 : Nat) : Int)).length
        = min (["b", "a", "c"] : List String).length (1 + 1)
    ∧ lexLt (okW.fileinfo "h" 7 ⟨okT, okT⟩).name.data
        (okW.fileinfo "h" 7 ⟨okT2, okT2⟩).name.data = chronLt okT okT2 :=
  ⟨⟨by decide, by decide⟩,
   (claim_C3 ["b", "a", "c"] 1 okW "h" 7 okT okT2 (by decide) (by decide)).1,
   (claim_C3 ["b", "a", "c"] 1 okW "h" 7 okT okT2 (by decide) (by decide)).2.2.1,
   (claim_C3 ["b", "a", "c"] 1 okW "h" 7 okT okT2 (by decide) (by decide)).2.2.2.2.2.2⟩

/-- C5 witness: a successful concrete rotation emits exactly one symlink
operation, pointing the base path at the new backup's base name. -/
theorem claim_C5_witness :
    okEnv.openErr (okW.fileinfo okEnv.host okEnv.pid okEnv.now).name = none
    ∧ (okW.rotateStep okEnv ⟨5, some "old"⟩).err = none
    ∧ ((okW.rotateStep okEnv ⟨5, some "old"⟩).ops.filter isSymlinkOp
        = if okW.ProcessID then []
          else [FsOp.symlink (filepathBase (okW.fileinfo okEnv.host okEnv.pid okEnv.now).name)
            okW.Filename]) :=
  ⟨rfl, (claim_C5 okW okEnv ⟨5, some "old"⟩ rfl).1,
   (claim_C5 okW okEnv ⟨5, some "old"⟩ rfl).2.1⟩

/-- C7 witness: closing an open concrete writer resets its state and
emits the close; a second close returns nil. -/
theorem claim_C7_witness :
    ((⟨3, some "f"⟩ : FileState).file = some "f")
    ∧ FileWriter.closeStep okEnv ⟨3, some "f"⟩ = (none, ⟨0, none⟩, [FsOp.closeF "f"])
    ∧ (FileWriter.closeStep okEnv (FileWriter.closeStep okEnv ⟨3, some "f"⟩).2.1).1 = none :=
  ⟨rfl, (claim_C7 okEnv okEnv ⟨3, some "f"⟩).1 "f" rfl,
   (claim_C7 okEnv okEnv ⟨3, some "f"⟩).2.2.1⟩

/-- Concrete readable-file oracle: only the machine-id file is readable. -/
def rfTest : String → Option String :=
  fun f => if f = "/etc/machine-id" then some "MID" else none

/-- C9 witness: a `localhost`-prefixed hostname yields the synthetic
label, and the fingerprint digests the label plus the one readable
machine-identifier file. -/
theorem claim_C9_witness :
    goHasPrefix "localhost.foo" "localhost" = true
    ∧ (hostIdentity (fun s => s.length) (some "localhost.foo") 123 "linux" rfTest).1
        = "localhost-" ++ toString 123
    ∧ (hostIdentity (fun s => s.length) (some "localhost.foo") 123 "linux" rfTest).2
        = ((hostIdentity (fun s => s.length) (some "localhost.foo") 123 "linux" rfTest).1
            ++ specConcat ((seedFiles "linux").filterMap rfTest)).length :=
  ⟨by decide,
   (claim_C9 (fun s => s.length) (some "localhost.foo") 123 "linux" rfTest).2.1
     "localhost.foo" rfl (by decide),
   (claim_C9 (fun s => s.length) (some "localhost.foo") 123 "linux" rfTest).2.2.2⟩

/-- C10 witness: the first write on a concrete closed writer opens the
timestamped file (whose name differs from the base path), first opening
it and then removing the base path. -/
theorem claim_C10_witness :
    (okW.Filename ≠ "")
    ∧ (okW.fileinfo okEnv.host okEnv.pid okEnv.now).name ≠ okW.Filename
    ∧ (okW.writeStep okEnv ⟨0, none⟩ [9, 9]).st.file
        = some (okW.fileinfo okEnv.host okEnv.pid okEnv.now).name
    ∧ (okW.writeStep okEnv ⟨0, none⟩ [9, 9]).ops.take 2
        = [FsOp.openF (okW.fileinfo okEnv.host okEnv.pid okEnv.now).name
             (okW.fileinfo okEnv.host okEnv.pid okEnv.now).flag
             (okW.fileinfo okEnv.host okEnv.pid okEnv.now).perm,
           FsOp.remove okW.Filename] :=
  ⟨by decide,
   (claim_C10 okW okEnv 0 [9, 9] (by decide) rfl (fun _ => rfl) rfl).1,
   (claim_C10 okW okEnv 0 [9, 9] (by decide) rfl (fun _ => rfl) rfl).2.1,
   (claim_C10 okW okEnv 0 [9, 9] (by decide) rfl (fun _ => rfl) rfl).2.2.2.1⟩
